import Mathlib

/-!
Verification development for the SDN control-plane client of
`bloXroute-Labs/bxcommon-go` (package `sdnsdk` plus supporting `types`).

The Go functions relevant to the checked properties are shallowly embedded
as executable Lean definitions:

* the cache-backed fetcher (`UpdateCacheFile`, `LoadCacheFile`,
  `httpWithCache`), with the filesystem modelled as a partial map from file
  names to byte lists and the HTTP layer abstracted into its three relevant
  outcomes (200 body, 503 unavailable, other failure);
* the relay-specification parser (`parsedCmdlineRelays` with its helpers
  `GetIP`, `trimSpaces`, `splitString`, `atoi`), with DNS resolution
  abstracted into two function parameters (`isIP` mirrors a successful
  `net.ParseIP`, `lookup` mirrors the `net.LookupHost` path of `GetIP`);
* the synchronous part of `DirectRelayConnections`;
* the relay re-evaluation pipeline (`getAutoConnectedRelays`,
  `findFastestAvailableRelays`, `convertMapToSortedSlice`,
  `findRelaysToSwitch`, `FindFastestRelays`), with `float64` latencies
  modelled as rationals and Go maps modelled as association lists;
* the network/account loaders (`FetchBlockchainNetwork`,
  `getBlockchainNetworks`, `fillInAccountDefaults`, `getAccountModel`).
-/

namespace BxSdn

/-! ### Cache files (sdnsdk cache helpers)

Bytes are modelled as `List Nat`, the data directory as a function from
file name to the current contents (`none` = the file does not exist /
cannot be read). -/

/-- The state of the cache directory: contents per file name. -/
def FileSys : Type := String → Option (List Nat)

/-- Embeds Go `UpdateCacheFile` (file `sdnsdk` cache helpers): the cache
file is opened with `os.O_CREATE|os.O_WRONLY` — crucially *without*
`os.O_TRUNC` — and `value` is written from offset 0.  The resulting file
contents are therefore `value` followed by whatever bytes of the previous
contents lie beyond `value.length`. -/
def UpdateCacheFile (old : Option (List Nat)) (value : List Nat) : List Nat :=
  value ++ (old.getD []).drop value.length

/-- Embeds Go `LoadCacheFile`: read the whole file, error when absent. -/
def LoadCacheFile (fs : FileSys) (fileName : String) : Option (List Nat) :=
  fs fileName

/-- The three outcomes of `realSDNHTTP.http` that `httpWithCache`
distinguishes: a 200 body, the `ErrSDNUnavailable` sentinel (status 503),
or any other error. -/
inductive HTTPOutcome : Type
  | success (data : List Nat)
  | sdnUnavailable
  | failure
deriving DecidableEq, Repr

/-- Embeds Go `realSDNHTTP.httpWithCache`: on success write the body
through `UpdateCacheFile` (write failures are only logged) and return the
body; on `ErrSDNUnavailable` fall back to `LoadCacheFile`, turning a
missing cache file into a hard error; propagate any other error.
Returns the call result together with the new cache-directory state. -/
def httpWithCache (fs : FileSys) (fileName : String) (outcome : HTTPOutcome) :
    Except String (List Nat) × FileSys :=
  match outcome with
  | .success data =>
      (Except.ok data,
        fun n => if n = fileName then some (UpdateCacheFile (fs n) data) else fs n)
  | .sdnUnavailable =>
      match LoadCacheFile fs fileName with
      | some cached => (Except.ok cached, fs)
      | none => (Except.error "got error from http request and cannot load cache file", fs)
  | .failure => (Except.error "http error", fs)

end BxSdn

namespace BxSdn

/-! ### Relay-specification parser (`parsedCmdlineRelays` and helpers) -/

/-- Embeds Go `strings.Trim(s, " ")`: strip leading and trailing space
characters (only spaces, as in the source). -/
def trimSpaces (s : String) : String :=
  String.mk (((s.data.dropWhile (· == ' ')).reverse.dropWhile (· == ' ')).reverse)

/-- Character-level embedding of Go `strings.Split` with a one-character
separator: splitting the empty list yields one empty piece, exactly as
`strings.Split("", sep) = [""]`. -/
def splitOnSep (sep : Char) : List Char → List (List Char)
  | [] => [[]]
  | c :: cs =>
      if c == sep then [] :: splitOnSep sep cs
      else
        match splitOnSep sep cs with
        | [] => [[c]]
        | h :: t => (c :: h) :: t

/-- Embeds Go `strings.Split(s, sep)` for one-character separators. -/
def splitString (sep : Char) (s : String) : List String :=
  (splitOnSep sep s.data).map String.mk

/-- Embeds Go `strconv.Atoi`: optional sign, one or more decimal digits,
error on anything else or on a value outside the signed 64-bit range. -/
def atoi (s : String) : Option Int :=
  let withSign : Int × List Char :=
    match s.data with
    | '+' :: rest => (1, rest)
    | '-' :: rest => (-1, rest)
    | cs => (1, cs)
  if withSign.2 = [] then none
  else if ¬ withSign.2.all Char.isDigit then none
  else
    let v : Int := withSign.1 * (withSign.2.foldl (fun a c => a * 10 + (c.toNat - 48)) 0 : Nat)
    if v < -(2 ^ 63) ∨ 2 ^ 63 ≤ v then none else some v

/-- Embeds Go `GetIP`: when `host` parses as an IP literal it is returned
unchanged; otherwise the DNS path resolves it.  DNS resolution is an
external collaborator, abstracted into the two parameters: `isIP h` mirrors
`net.ParseIP(h) != nil`, and `lookup h` mirrors the `net.LookupHost` branch
(first returned address, `none` on any resolution error). -/
def GetIP (isIP : String → Bool) (lookup : String → Option String) (host : String) :
    Option String :=
  if isIP host then some host else lookup host

/-- The parse errors `parsedCmdlineRelays` can report, one per `return`
site of the Go function. -/
inductive ParseErr : Type
  | emptyArgs   -- "no --relays/relay-ip arguments were provided"
  | emptyToken  -- "argument to --relays/relay-ip is empty or has an extra comma"
  | badFormat   -- "relay from --relays/relay-ip was given in the incorrect format"
  | badPort     -- "port provided ... is not valid"
  | badHost     -- error from GetIP
deriving DecidableEq, Repr

/-- Outcome of handling one comma-separated token inside the loop of
`parsedCmdlineRelays`. -/
inductive TokenResult : Type
  | auto
  | relay (ip : String) (port : Int)
  | bad (e : ParseErr)
deriving DecidableEq, Repr

/-- The per-token body of the loop in Go `parsedCmdlineRelays`: trim the
token; `"auto"` counts an auto slot; an empty token is fatal; split on
`':'` (more than two pieces is fatal); parse the port when present
(default 1809); resolve the host via `GetIP`. -/
def parseToken (isIP : String → Bool) (lookup : String → Option String) (relay : String) :
    TokenResult :=
  let s := trimSpaces relay
  if s = "auto" then .auto
  else if s = "" then .bad .emptyToken
  else
    let parts := splitString ':' s
    if 2 < parts.length then .bad .badFormat
    else
      let host := parts.headD ""
      let port? : Option Int :=
        if parts.length = 2 then atoi (parts.getD 1 "") else some 1809
      match port? with
      | none => .bad .badPort
      | some port =>
          match GetIP isIP lookup host with
          | none => .bad .badHost
          | some ip => .relay ip port

/-- Embeds the insertion `if _, ok := overrideRelays[ip]; !ok { ... }`:
the relay map is an association list keyed by IP; an already-present IP is
left untouched (first specification wins). -/
def relayMapInsert (m : List (String × Int)) (ip : String) (port : Int) :
    List (String × Int) :=
  if (m.lookup ip).isSome then m else m ++ [(ip, port)]

/-- Embeds the loop of Go `parsedCmdlineRelays` over the comma-separated
tokens: before inspecting each token the loop breaks once
`len(overrideRelays) + autoCount == relayLimit`. -/
def parseRelays (isIP : String → Bool) (lookup : String → Option String)
    (relayLimit : Nat) :
    List String → List (String × Int) → Nat → Except ParseErr (List (String × Int) × Nat)
  | [], acc, autoCount => .ok (acc, autoCount)
  | tok :: rest, acc, autoCount =>
      if acc.length + autoCount = relayLimit then .ok (acc, autoCount)
      else
        match parseToken isIP lookup tok with
        | .auto => parseRelays isIP lookup relayLimit rest acc (autoCount + 1)
        | .bad e => .error e
        | .relay ip port =>
            parseRelays isIP lookup relayLimit rest (relayMapInsert acc ip port) autoCount

/-- Embeds Go `parsedCmdlineRelays`: an empty argument string is fatal;
otherwise run the token loop over `strings.Split(relayHosts, ",")`. -/
def parsedCmdlineRelays (isIP : String → Bool) (lookup : String → Option String)
    (relayHosts : String) (relayLimit : Nat) :
    Except ParseErr (List (String × Int) × Nat) :=
  if relayHosts = "" then .error .emptyArgs
  else parseRelays isIP lookup relayLimit (splitString ',' relayHosts) [] 0

/-- Concrete model of the IPv4 branch of Go `net.ParseIP`, used to
instantiate the abstract `isIP` parameter on concrete inputs: four
dot-separated decimal fields, each of at most three digits, value at most
255, no leading zero. -/
def isIPv4 (s : String) : Bool :=
  let parts := splitString '.' s
  parts.length = 4 &&
    parts.all fun p =>
      p ≠ "" && p.data.all Char.isDigit && p.length ≤ 3 &&
        (p.data.foldl (fun a c => a * 10 + (c.toNat - 48)) 0 ≤ 255) &&
        (p.length = 1 || p.data.headD '0' ≠ '0')

/-- A resolver environment with no DNS: only IP literals resolve. -/
def noLookup : String → Option String := fun _ => none

/-! ### Relay controller data model

`float64` latencies are modelled as rationals, Go maps as association
lists.  `types.RelayInfo.TimeAdded` (a wall-clock timestamp, always set to
`time.Now()`) is omitted: no checked property mentions it. -/

/-- Embeds Go `nodeLatencyInfo`: a ping result. -/
structure nodeLatencyInfo : Type where
  ip : String
  port : Int
  latency : ℚ
deriving DecidableEq, Repr

/-- Embeds Go `types.RelayInfo` (sans `TimeAdded`, see above). -/
structure RelayInfo : Type where
  port : Int
  isConnected : Bool
  isStatic : Bool
  latency : ℚ
deriving DecidableEq, Repr

/-- Embeds Go `ConnInstructionType`. -/
inductive ConnInstructionType : Type
  | connect
  | disconnect
  | switch
deriving DecidableEq, Repr

/-- Embeds Go `RelayInstruction`. -/
structure RelayInstruction : Type where
  ip : String
  type : ConnInstructionType
  port : Int
  isStatic : Bool
  relaysToSwitch : List nodeLatencyInfo
deriving DecidableEq, Repr

/-- Embeds Go `message.Peer` (the fields the controller reads). -/
structure Peer : Type where
  ip : String
  port : Int
deriving DecidableEq, Repr

/-- Embeds `IgnoredRelaysMap.Store`: insert or overwrite the entry for
`k` in the association-list model of the sync map. -/
def mapStore (m : List (String × RelayInfo)) (k : String) (v : RelayInfo) :
    List (String × RelayInfo) :=
  if (m.lookup k).isSome then m.map (fun e => if e.1 = k then (k, v) else e)
  else m ++ [(k, v)]

/-- The errors `DirectRelayConnections` can return synchronously: a parse
error, a failed potential-relays fetch, or `ErrNoRelays`. -/
inductive DRCErr : Type
  | parse (e : ParseErr)
  | fetchRelaysFailed
  | noRelays
deriving DecidableEq, Repr

/-- Embeds the synchronous part of Go `DirectRelayConnections`: parse the
spec (propagating parse errors before any store or send); store every
override relay into the ignored map as `{IsConnected: true, IsStatic:
true, Port: port}` and emit a static `Connect` instruction for it; when
`autoCount > 0` fetch the potential relays (the HTTP fetch is abstracted
into the `fetchedRelays` parameter: `none` = fetch error, `some l` = the
decoded peer list) and fail with `ErrNoRelays` on an empty list, otherwise
hand off to the asynchronous `manageAutoRelays` (not modelled here).
Returns (synchronous error, emitted instructions, final ignored map). -/
def DirectRelayConnections (isIP : String → Bool) (lookup : String → Option String)
    (relayHosts : String) (relayLimit : Nat)
    (ignoredRelays : List (String × RelayInfo)) (fetchedRelays : Option (List Peer)) :
    Option DRCErr × List RelayInstruction × List (String × RelayInfo) :=
  match parsedCmdlineRelays isIP lookup relayHosts relayLimit with
  | .error e => (some (.parse e), [], ignoredRelays)
  | .ok (overrideRelays, autoCount) =>
      let ignored' := overrideRelays.foldl
        (fun m e => mapStore m e.1 ⟨e.2, true, true, 0⟩) ignoredRelays
      let instrs : List RelayInstruction :=
        overrideRelays.map (fun e => ⟨e.1, .connect, e.2, true, []⟩)
      if autoCount = 0 then (none, instrs, ignored')
      else
        match fetchedRelays with
        | none => (some .fetchRelaysFailed, instrs, ignored')
        | some [] => (some .noRelays, instrs, ignored')
        | some _ => (none, instrs, ignored')

/-! ### Relay re-evaluation (`FindFastestRelays` pipeline) -/

/-- Embeds Go `getAutoConnectedRelays`: the entries of the ignored map
with `IsConnected` true and `IsStatic` false. -/
def getAutoConnectedRelays (ignoredRelays : List (String × RelayInfo)) :
    List (String × RelayInfo) :=
  ignoredRelays.filter (fun e => e.2.isConnected && !e.2.isStatic)

/-- The in-place update `info.Latency = pingLatency.Latency;
connectedAutoRelays[ip] = info` of `findFastestAvailableRelays`. -/
def setLatency (m : List (String × RelayInfo)) (ip : String) (lat : ℚ) :
    List (String × RelayInfo) :=
  m.map (fun e => if e.1 = ip then (e.1, { e.2 with latency := lat }) else e)

/-- Embeds Go `findFastestAvailableRelays`: walk the ping results in
order; a result whose IP is a connected auto relay updates that relay's
stored latency, every other result is appended to the available list.
Returns the updated map together with the available list. -/
def findFastestAvailableRelays :
    List nodeLatencyInfo → List (String × RelayInfo) →
      List (String × RelayInfo) × List nodeLatencyInfo
  | [], connected => (connected, [])
  | p :: ps, connected =>
      if (connected.lookup p.ip).isSome then
        findFastestAvailableRelays ps (setLatency connected p.ip p.latency)
      else
        let r := findFastestAvailableRelays ps connected
        (r.1, p :: r.2)

/-- Insertion step for `convertMapToSortedSlice` (descending latency). -/
def insertByLatencyDesc (r : String × RelayInfo) :
    List (String × RelayInfo) → List (String × RelayInfo)
  | [] => [r]
  | x :: xs =>
      if x.2.latency < r.2.latency then r :: x :: xs
      else x :: insertByLatencyDesc r xs

/-- Embeds Go `convertMapToSortedSlice`: the connected auto relays as a
slice sorted descending by latency (`sort.Slice` with `>`), here as an
insertion sort realising that ordering. -/
def convertMapToSortedSlice (connected : List (String × RelayInfo)) :
    List (String × RelayInfo) :=
  connected.foldr insertByLatencyDesc []

/-- Embeds Go `findRelaysToSwitch`: for each connected auto relay (worst
latency first), walk the available relays in order and collect candidates
until the first one with `relay.Latency < candidate.Latency +
latencyThreshold` (`continue OuterLoop`), i.e. take the longest prefix
clearing the threshold; relays with no candidate get no entry.
`latencyThreshold = 10`. -/
def findRelaysToSwitch (connected : List (String × RelayInfo))
    (fastest : List nodeLatencyInfo) :
    List ((String × Int) × List nodeLatencyInfo) :=
  (convertMapToSortedSlice connected).filterMap (fun r =>
    let cs := fastest.takeWhile (fun c => !(decide (r.2.latency < c.latency + 10)))
    if cs.isEmpty then none else some ((r.1, r.2.port), cs))

/-- Embeds Go `FindFastestRelays` from the probe results on: an empty
latency list aborts; otherwise build the connected-auto-relay map, split
the probe results into latency updates and available relays, compute the
switch sets, and emit one `Switch` instruction per relay with a non-empty
switch set.  (The SDN fetch and the probing itself are abstracted into
the `pingLatencies` parameter.) -/
def FindFastestRelays (ignoredRelays : List (String × RelayInfo))
    (pingLatencies : List nodeLatencyInfo) : List RelayInstruction :=
  if pingLatencies.isEmpty then []
  else
    let connected := getAutoConnectedRelays ignoredRelays
    let pr := findFastestAvailableRelays pingLatencies connected
    (findRelaysToSwitch pr.1 pr.2).map (fun p => ⟨p.1.1, .switch, p.1.2, false, p.2⟩)

/-! ### Blockchain-network loaders -/

/-- Embeds `types.EthereumProtocol`. -/
def EthereumProtocol : String := "Ethereum"

/-- `math.MaxInt` on a 64-bit platform, as used by
`big.NewInt(math.MaxInt)`. -/
def maxInt64 : Int := 2 ^ 63 - 1

/-- Embeds Go `message.BlockchainNetwork` (the fields the loaders read;
`DefaultAttributes.TerminalTotalDifficulty` is a `big.Int`, modelled as
`Int`). -/
structure BlockchainNetwork : Type where
  protocol : String
  networkNum : Nat
  terminalTotalDifficulty : Int
  minTxAgeSeconds : ℚ
deriving DecidableEq, Repr

/-- Embeds the storing step of Go `FetchBlockchainNetwork`: after
deserializing the response, an Ethereum network whose
`TerminalTotalDifficulty` is 0 has it replaced by `math.MaxInt`. -/
def FetchBlockchainNetwork (resp : BlockchainNetwork) : BlockchainNetwork :=
  if resp.protocol = EthereumProtocol ∧ resp.terminalTotalDifficulty = 0 then
    { resp with terminalTotalDifficulty := maxInt64 }
  else resp

/-- Embeds the storing step of Go `getBlockchainNetworks` (the body of
`FetchAllBlockchainNetworks`): every deserialized network is stored in the
map under its `NetworkNum` exactly as received — this loader applies no
`TerminalTotalDifficulty` replacement. -/
def getBlockchainNetworks (resp : List BlockchainNetwork) :
    List (Nat × BlockchainNetwork) :=
  resp.map (fun n => (n.networkNum, n))

/-! ### Account loading -/

/-- Embeds Go `message.MsgQuota` (the field the loader reads; the limit
is an unsigned 64-bit quantity, modelled as `Nat`). -/
structure MsgQuota : Type where
  limit : Nat
deriving DecidableEq, Repr

/-- Embeds Go `message.BDNService` (the field the loader reads). -/
structure BDNService : Type where
  msgQuota : MsgQuota
deriving DecidableEq, Repr

/-- Embeds Go `message.Account` (the fields `getAccountModel` reads). -/
structure Account : Type where
  relayLimit : BDNService
  maxAllowedNodes : BDNService
deriving DecidableEq, Repr

/-- Modelled from the spec: Go `fillInAccountDefaults` merges the fetched
account into `message.GetDefaultEliteAccount(now)` with
`copier.CopyWithOption{IgnoreEmpty, DeepCopy}`; the `message` account
template and the `copier` library are outside `src/`, so the merge is
modelled per the spec's words — "only empty fields in the loaded value
are populated" from the default-elite template.  The template is passed
in as `defaultElite`. -/
def fillInAccountDefaults (defaultElite loaded : Account) : Account :=
  { relayLimit := ⟨⟨if loaded.relayLimit.msgQuota.limit = 0 then
      defaultElite.relayLimit.msgQuota.limit else loaded.relayLimit.msgQuota.limit⟩⟩,
    maxAllowedNodes := ⟨⟨if loaded.maxAllowedNodes.msgQuota.limit = 0 then
      defaultElite.maxAllowedNodes.msgQuota.limit else
        loaded.maxAllowedNodes.msgQuota.limit⟩⟩ }

/-- Embeds Go `getAccountModel`: after the default merge, a
`RelayLimit.MsgQuota.Limit` of 0 is rewritten to 1 and a
`MaxAllowedNodes.MsgQuota.Limit` of 0 is rewritten to 6. -/
def getAccountModel (defaultElite fetched : Account) : Account :=
  let accountModel := fillInAccountDefaults defaultElite fetched
  let step1 :=
    if accountModel.relayLimit.msgQuota.limit = 0 then
      { accountModel with relayLimit := ⟨⟨1⟩⟩ }
    else accountModel
  if step1.maxAllowedNodes.msgQuota.limit = 0 then
    { step1 with maxAllowedNodes := ⟨⟨6⟩⟩ }
  else step1

end BxSdn

namespace BxSdn

/-- C1: on `ErrSDNUnavailable` (status 503), `httpWithCache` returns
exactly the bytes stored in the cache file when it exists, with no error
and no change to the cache directory; when the cache file cannot be read
it returns an error (the 503 is not converted into a success). -/
theorem c1_httpWithCache_unavailable (fs : FileSys) (fileName : String) :
    (∀ cached : List Nat, fs fileName = some cached →
      httpWithCache fs fileName HTTPOutcome.sdnUnavailable = (Except.ok cached, fs)) ∧
    (fs fileName = none →
      ∃ e : String,
        httpWithCache fs fileName HTTPOutcome.sdnUnavailable = (Except.error e, fs)) := by
  constructor
  · intro cached h
    simp [httpWithCache, LoadCacheFile, h]
  · intro h
    exact ⟨"got error from http request and cannot load cache file",
      by simp [httpWithCache, LoadCacheFile, h]⟩

/-- Witness for C1 at a concrete cache state: the file `"k"` holds
`[1, 2, 3]`; the 503 fallback returns exactly those bytes. -/
theorem c1_httpWithCache_unavailable_witness :
    httpWithCache (fun n => if n = "k" then some [1, 2, 3] else none) "k"
        HTTPOutcome.sdnUnavailable
      = (Except.ok [1, 2, 3], fun n => if n = "k" then some [1, 2, 3] else none) :=
  (c1_httpWithCache_unavailable
    (fun n => if n = "k" then some [1, 2, 3] else none) "k").1 [1, 2, 3] (by simp)

/-- C2: `UpdateCacheFile` does *not* truncate: with previous contents
`[65, 65, 65, 65]` on disk, a successful call whose body is `[66, 66]`
returns `[66, 66]` but leaves `[66, 66, 65, 65]` in the cache file, so
the bytes on disk do not equal the bytes returned. -/
theorem c2_updateCacheFile_no_truncate :
    (httpWithCache (fun n => if n = "k" then some [65, 65, 65, 65] else none) "k"
        (HTTPOutcome.success [66, 66])).1 = Except.ok [66, 66] ∧
    (httpWithCache (fun n => if n = "k" then some [65, 65, 65, 65] else none) "k"
        (HTTPOutcome.success [66, 66])).2 "k" = some [66, 66, 65, 65] ∧
    ([66, 66, 65, 65] : List Nat) ≠ [66, 66] := by
  refine ⟨rfl, ?_, by decide⟩
  simp [httpWithCache, UpdateCacheFile]

/-! ### Parser lemmas -/

/-- Once the unique-relay count plus the auto count has reached the
limit, the loop consumes nothing further and returns the accumulated
state unchanged, whatever the remaining tokens are. -/
theorem parseRelays_at_limit (isIP : String → Bool) (lookup : String → Option String)
    (relayLimit : Nat) (toks : List String) (acc : List (String × Int)) (autoCount : Nat)
    (h : acc.length + autoCount = relayLimit) :
    parseRelays isIP lookup relayLimit toks acc autoCount = .ok (acc, autoCount) := by
  cases toks with
  | nil => rfl
  | cons tok rest => simp [parseRelays, h]

theorem length_relayMapInsert_le (m : List (String × Int)) (ip : String) (port : Int) :
    (relayMapInsert m ip port).length ≤ m.length + 1 := by
  unfold relayMapInsert
  split
  · omega
  · simp

/-- Loop invariant: starting below or at the limit, the loop never takes
the sum of unique relays and auto slots above the limit. -/
theorem parseRelays_sum_le (isIP : String → Bool) (lookup : String → Option String)
    (relayLimit : Nat) :
    ∀ (toks : List String) (acc : List (String × Int)) (autoCount : Nat)
      (m : List (String × Int)) (a : Nat),
      acc.length + autoCount ≤ relayLimit →
      parseRelays isIP lookup relayLimit toks acc autoCount = .ok (m, a) →
      m.length + a ≤ relayLimit := by
  intro toks
  induction toks with
  | nil =>
      intro acc autoCount m a hle hres
      simp only [parseRelays] at hres
      cases hres
      exact hle
  | cons tok rest ih =>
      intro acc autoCount m a hle hres
      by_cases hlim : acc.length + autoCount = relayLimit
      · rw [parseRelays_at_limit _ _ _ _ _ _ hlim] at hres
        cases hres
        exact hle
      · have hlt : acc.length + autoCount < relayLimit := lt_of_le_of_ne hle hlim
        simp only [parseRelays, if_neg hlim] at hres
        cases htok : parseToken isIP lookup tok with
        | auto =>
            rw [htok] at hres
            exact ih acc (autoCount + 1) m a (by omega) hres
        | bad e => rw [htok] at hres; cases hres
        | relay ip port =>
            rw [htok] at hres
            refine ih (relayMapInsert acc ip port) autoCount m a ?_ hres
            have := length_relayMapInsert_le acc ip port
            omega

/-- C5: whenever `parsedCmdlineRelays` succeeds, the number of distinct
override relay IPs plus the number of counted `auto` tokens is at most
the relay limit; moreover the loop stops consuming tokens as soon as that
sum equals the limit, returning the state accumulated so far. -/
theorem c5_parsedCmdlineRelays_limit (isIP : String → Bool)
    (lookup : String → Option String) (relayHosts : String) (relayLimit : Nat)
    (overrideRelays : List (String × Int)) (autoCount : Nat)
    (h : parsedCmdlineRelays isIP lookup relayHosts relayLimit
          = .ok (overrideRelays, autoCount)) :
    overrideRelays.length + autoCount ≤ relayLimit ∧
    (∀ (toks : List String) (acc : List (String × Int)) (a : Nat),
      acc.length + a = relayLimit →
      parseRelays isIP lookup relayLimit toks acc a = .ok (acc, a)) := by
  constructor
  · unfold parsedCmdlineRelays at h
    split at h
    · cases h
    · exact parseRelays_sum_le isIP lookup relayLimit _ [] 0 overrideRelays autoCount
        (by simp) h
  · intro toks acc a ha
    exact parseRelays_at_limit isIP lookup relayLimit toks acc a ha

/-- Witness for C5 at the concrete spec `"1.1.1.1, auto, auto"` with
limit 2: the parse keeps one override relay and one auto slot (the third
token is not consumed), and 1 + 1 ≤ 2. -/
theorem c5_parsedCmdlineRelays_limit_witness :
    ([("1.1.1.1", (1809 : Int))].length + 1 ≤ 2) ∧
    (∀ (toks : List String) (acc : List (String × Int)) (a : Nat),
      acc.length + a = 2 →
      parseRelays isIPv4 noLookup 2 toks acc a = .ok (acc, a)) :=
  c5_parsedCmdlineRelays_limit isIPv4 noLookup "1.1.1.1, auto, auto" 2
    [("1.1.1.1", 1809)] 1 rfl

/-- A binding found in `m` is still found, with the same value, in
`m ++ l`. -/
theorem lookup_append_of_lookup {α : Type} [BEq α] {β : Type}
    (m l : List (α × β)) (k : α) (v : β) (h : m.lookup k = some v) :
    (m ++ l).lookup k = some v := by
  induction m with
  | nil => simp [List.lookup] at h
  | cons x xs ih =>
      simp only [List.lookup, List.cons_append] at h ⊢
      rcases hx : (k == x.1) with _ | _
      · simp only [hx] at h ⊢
        exact ih h
      · simp only [hx] at h ⊢
        exact h

/-- Inserting under any key leaves every already-bound key's value
unchanged (`relayMapInsert` never overwrites). -/
theorem lookup_relayMapInsert (m : List (String × Int)) (ip ip' : String)
    (port p : Int) (h : m.lookup ip = some p) :
    (relayMapInsert m ip' port).lookup ip = some p := by
  unfold relayMapInsert
  split
  · exact h
  · exact lookup_append_of_lookup m [(ip', port)] ip p h

/-- A binding present in the accumulator survives the rest of the parse
loop untouched. -/
theorem parseRelays_lookup_preserved (isIP : String → Bool)
    (lookup : String → Option String) (relayLimit : Nat) :
    ∀ (toks : List String) (acc : List (String × Int)) (autoCount : Nat)
      (m : List (String × Int)) (a : Nat) (ip : String) (p : Int),
      acc.lookup ip = some p →
      parseRelays isIP lookup relayLimit toks acc autoCount = .ok (m, a) →
      m.lookup ip = some p := by
  intro toks
  induction toks with
  | nil =>
      intro acc autoCount m a ip p hacc hres
      simp only [parseRelays] at hres
      cases hres
      exact hacc
  | cons tok rest ih =>
      intro acc autoCount m a ip p hacc hres
      by_cases hlim : acc.length + autoCount = relayLimit
      · rw [parseRelays_at_limit _ _ _ _ _ _ hlim] at hres
        cases hres
        exact hacc
      · simp only [parseRelays, if_neg hlim] at hres
        cases htok : parseToken isIP lookup tok with
        | auto => rw [htok] at hres; exact ih acc (autoCount + 1) m a ip p hacc hres
        | bad e => rw [htok] at hres; cases hres
        | relay ip' port =>
            rw [htok] at hres
            exact ih (relayMapInsert acc ip' port) autoCount m a ip p
              (lookup_relayMapInsert acc ip ip' port p hacc) hres

/-- C7: a later token resolving to an IP already present in the override
map is silently dropped — processing it is a no-op for the loop — and the
port recorded for that IP when it first appeared is the one in the final
map, whatever later duplicates carried. -/
theorem c7_duplicate_ips_first_wins (isIP : String → Bool)
    (lookup : String → Option String) (relayLimit : Nat) :
    (∀ (tok : String) (rest : List String) (acc : List (String × Int))
        (autoCount : Nat) (ip : String) (port : Int),
      parseToken isIP lookup tok = .relay ip port →
      (acc.lookup ip).isSome →
      parseRelays isIP lookup relayLimit (tok :: rest) acc autoCount
        = parseRelays isIP lookup relayLimit rest acc autoCount) ∧
    (∀ (toks : List String) (acc : List (String × Int)) (autoCount : Nat)
        (m : List (String × Int)) (a : Nat) (ip : String) (p : Int),
      acc.lookup ip = some p →
      parseRelays isIP lookup relayLimit toks acc autoCount = .ok (m, a) →
      m.lookup ip = some p) := by
  constructor
  · intro tok rest acc autoCount ip port htok hin
    by_cases hlim : acc.length + autoCount = relayLimit
    · rw [parseRelays_at_limit _ _ _ _ _ _ hlim,
        parseRelays_at_limit _ _ _ _ _ _ hlim]
    · simp only [parseRelays, if_neg hlim, htok, relayMapInsert, if_pos hin]
  · exact parseRelays_lookup_preserved isIP lookup relayLimit

/-- Witness for C7 on the duplicate spec `"1.1.1.1:1, 1.1.1.1:2"`:
processing the duplicate token is a no-op and the final map still binds
`1.1.1.1` to port 1. -/
theorem c7_duplicate_ips_first_wins_witness :
    parseRelays isIPv4 noLookup 2 [" 1.1.1.1:2"] [("1.1.1.1", 1)] 0
        = parseRelays isIPv4 noLookup 2 [] [("1.1.1.1", 1)] 0 ∧
    [("1.1.1.1", (1 : Int))].lookup "1.1.1.1" = some 1 :=
  ⟨(c7_duplicate_ips_first_wins isIPv4 noLookup 2).1 " 1.1.1.1:2" []
      [("1.1.1.1", 1)] 0 "1.1.1.1" 2 rfl rfl,
    (c7_duplicate_ips_first_wins isIPv4 noLookup 2).2 [" 1.1.1.1:2"]
      [("1.1.1.1", 1)] 0 [("1.1.1.1", 1)] 0 "1.1.1.1" 1 rfl rfl⟩

/-- `splitOnSep` always produces at least one piece. -/
theorem splitOnSep_ne_nil (sep : Char) (l : List Char) : splitOnSep sep l ≠ [] := by
  cases l with
  | nil => simp [splitOnSep]
  | cons c cs =>
      unfold splitOnSep
      split
      · simp
      · split
        · simp
        · simp

/-- Unfolding equation for `splitOnSep` on a cons cell. -/
theorem splitOnSep_cons (sep c : Char) (cs : List Char) :
    splitOnSep sep (c :: cs)
      = if c == sep then [] :: splitOnSep sep cs
        else
          match splitOnSep sep cs with
          | [] => [[c]]
          | h :: t => (c :: h) :: t := rfl

/-- Splitting distributes over a separator in the middle, mirroring
`strings.Split(s + "," + t, ",") = Split(s, ",") ++ Split(t, ",")`. -/
theorem splitOnSep_append (sep : Char) (l₁ l₂ : List Char) :
    splitOnSep sep (l₁ ++ sep :: l₂) = splitOnSep sep l₁ ++ splitOnSep sep l₂ := by
  induction l₁ with
  | nil => simp [splitOnSep]
  | cons c cs ih =>
      rw [List.cons_append, splitOnSep_cons, splitOnSep_cons sep c cs]
      by_cases hc : c == sep
      · rw [if_pos hc, if_pos hc, ih, List.cons_append]
      · rw [if_neg hc, if_neg hc, ih]
        rcases hcs : splitOnSep sep cs with _ | ⟨h, t⟩
        · exact absurd hcs (splitOnSep_ne_nil sep cs)
        · simp

/-- Same token list, then arbitrary extra tokens: once the parse has
reached the limit, the extra tokens are never inspected. -/
theorem parseRelays_append_of_limit (isIP : String → Bool)
    (lookup : String → Option String) (relayLimit : Nat) :
    ∀ (toks junk : List String) (acc : List (String × Int)) (autoCount : Nat)
      (m : List (String × Int)) (a : Nat),
      parseRelays isIP lookup relayLimit toks acc autoCount = .ok (m, a) →
      m.length + a = relayLimit →
      parseRelays isIP lookup relayLimit (toks ++ junk) acc autoCount = .ok (m, a) := by
  intro toks
  induction toks with
  | nil =>
      intro junk acc autoCount m a hres hfull
      simp only [parseRelays] at hres
      cases hres
      simpa using parseRelays_at_limit isIP lookup relayLimit junk acc autoCount hfull
  | cons tok rest ih =>
      intro junk acc autoCount m a hres hfull
      by_cases hlim : acc.length + autoCount = relayLimit
      · rw [parseRelays_at_limit _ _ _ _ _ _ hlim] at hres
        cases hres
        exact parseRelays_at_limit _ _ _ _ _ _ hlim
      · simp only [parseRelays, if_neg hlim, List.cons_append] at hres ⊢
        revert hres
        cases htok : parseToken isIP lookup tok with
        | auto =>
            intro hres
            exact ih junk acc (autoCount + 1) m a hres hfull
        | bad e =>
            intro hres
            cases hres
        | relay ip port =>
            intro hres
            exact ih junk (relayMapInsert acc ip port) autoCount m a hres hfull

/-- C10: when the parse of `relayHosts` ends with the unique-override
count plus the auto count exactly at the limit, appending any further
comma-separated text — malformed tokens included — leaves the result
unchanged and still successful: the remaining tokens are never
inspected. -/
theorem c10_tokens_after_limit_ignored (isIP : String → Bool)
    (lookup : String → Option String) (relayHosts extra : String) (relayLimit : Nat)
    (overrideRelays : List (String × Int)) (autoCount : Nat)
    (hres : parsedCmdlineRelays isIP lookup relayHosts relayLimit
              = .ok (overrideRelays, autoCount))
    (hfull : overrideRelays.length + autoCount = relayLimit) :
    parsedCmdlineRelays isIP lookup (relayHosts ++ "," ++ extra) relayLimit
      = .ok (overrideRelays, autoCount) := by
  have hdata : (relayHosts ++ "," ++ extra).data = relayHosts.data ++ ',' :: extra.data := by
    simp [String.data_append]
  have hne : relayHosts ++ "," ++ extra ≠ "" := by
    intro hcontra
    have : (relayHosts ++ "," ++ extra).data = ([] : List Char) := by
      rw [hcontra]
    rw [hdata] at this
    simp at this
  unfold parsedCmdlineRelays at hres ⊢
  rw [if_neg hne]
  split at hres
  · cases hres
  · have hsplit : splitString ',' (relayHosts ++ "," ++ extra)
        = splitString ',' relayHosts ++ splitString ',' extra := by
      unfold splitString
      rw [hdata, splitOnSep_append, List.map_append]
    rw [hsplit]
    exact parseRelays_append_of_limit isIP lookup relayLimit _ _ [] 0
      overrideRelays autoCount hres hfull

/-- Witness for C10: `"1.1.1.1"` parses to one override relay with limit
1; appending the malformed `":::"` (three colons, empty host) after the
comma leaves the parse successful and unchanged. -/
theorem c10_tokens_after_limit_ignored_witness :
    parsedCmdlineRelays isIPv4 noLookup ("1.1.1.1" ++ "," ++ ":::") 1
      = .ok ([("1.1.1.1", 1809)], 0) :=
  c10_tokens_after_limit_ignored isIPv4 noLookup "1.1.1.1" ":::" 1
    [("1.1.1.1", 1809)] 0 rfl rfl

/-- C6 counterexample: the spec string `"1.1.1.1,"` contains an empty
token (trailing comma), yet with relay limit 1 `DirectRelayConnections`
returns no error, emits a `Connect` instruction and stores an entry in
the ignored-relays map — the loop stopped at the limit before reaching
the empty token. -/
theorem c6_counterexample :
    (DirectRelayConnections isIPv4 noLookup "1.1.1.1," 1 [] none).1 = none ∧
    (DirectRelayConnections isIPv4 noLookup "1.1.1.1," 1 [] none).2.1
      = [⟨"1.1.1.1", ConnInstructionType.connect, 1809, true, []⟩] ∧
    (DirectRelayConnections isIPv4 noLookup "1.1.1.1," 1 [] none).2.2
      = [("1.1.1.1", ⟨1809, true, true, 0⟩)] :=
  ⟨rfl, rfl, rfl⟩

/-- C6 (amended): whenever the parse fails — in particular when it
reaches, before the relay limit is met, an empty token, a token with more
than one `':'`, a non-integer port or an unresolvable host, and always on
the empty input string — `DirectRelayConnections` returns the error
synchronously, emits no `RelayInstruction` and leaves the ignored-relays
map untouched. -/
theorem c6_parse_error_is_synchronous (isIP : String → Bool)
    (lookup : String → Option String) (relayLimit : Nat) :
    (∀ (relayHosts : String) (e : ParseErr)
        (ignoredRelays : List (String × RelayInfo))
        (fetchedRelays : Option (List Peer)),
      parsedCmdlineRelays isIP lookup relayHosts relayLimit = .error e →
      DirectRelayConnections isIP lookup relayHosts relayLimit ignoredRelays
          fetchedRelays
        = (some (.parse e), [], ignoredRelays)) ∧
    (∀ (tok : String) (rest : List String) (acc : List (String × Int))
        (autoCount : Nat) (e : ParseErr),
      acc.length + autoCount ≠ relayLimit →
      parseToken isIP lookup tok = .bad e →
      parseRelays isIP lookup relayLimit (tok :: rest) acc autoCount = .error e) ∧
    (∀ (ignoredRelays : List (String × RelayInfo))
        (fetchedRelays : Option (List Peer)),
      DirectRelayConnections isIP lookup "" relayLimit ignoredRelays fetchedRelays
        = (some (.parse .emptyArgs), [], ignoredRelays)) := by
  refine ⟨?_, ?_, ?_⟩
  · intro relayHosts e ignoredRelays fetchedRelays hparse
    unfold DirectRelayConnections
    rw [hparse]
  · intro tok rest acc autoCount e hlim htok
    simp only [parseRelays, if_neg hlim, htok]
  · intro ignoredRelays fetchedRelays
    rfl

/-- Witness for the amended C6 at the concrete bad spec
`"1.1.1.1, 2.2.2.2:abc"` (non-integer port on the second token, reached
below the limit): the call fails synchronously with the port error,
emitting nothing and storing nothing. -/
theorem c6_parse_error_is_synchronous_witness :
    DirectRelayConnections isIPv4 noLookup "1.1.1.1, 2.2.2.2:abc" 2 [] none
      = (some (.parse .badPort), [], []) :=
  (c6_parse_error_is_synchronous isIPv4 noLookup 2).1 "1.1.1.1, 2.2.2.2:abc"
    .badPort [] none rfl

/-! ### Relay re-evaluation lemmas -/

theorem pred_of_mem_takeWhile {α : Type} (q : α → Bool) :
    ∀ (l : List α) (a : α), a ∈ l.takeWhile q → q a = true := by
  intro l
  induction l with
  | nil => intro a h; simp [List.takeWhile] at h
  | cons x xs ih =>
      intro a h
      by_cases hx : q x
      · rw [List.takeWhile_cons_of_pos hx] at h
        rcases List.mem_cons.mp h with rfl | h
        · exact hx
        · exact ih a h
      · rw [List.takeWhile_cons_of_neg hx] at h
        simp at h

theorem sublist_takeWhile {α : Type} (q : α → Bool) :
    ∀ l : List α, (l.takeWhile q).Sublist l := by
  intro l
  induction l with
  | nil => simp
  | cons x xs ih =>
      by_cases hx : q x
      · rw [List.takeWhile_cons_of_pos hx]
        exact ih.cons₂ x
      · rw [List.takeWhile_cons_of_neg hx]
        exact List.nil_sublist _

theorem mem_insertByLatencyDesc (r x : String × RelayInfo) :
    ∀ l : List (String × RelayInfo),
      x ∈ insertByLatencyDesc r l ↔ x = r ∨ x ∈ l := by
  intro l
  induction l with
  | nil => simp [insertByLatencyDesc]
  | cons y ys ih =>
      unfold insertByLatencyDesc
      split
      · simp [List.mem_cons]
      · simp only [List.mem_cons, ih]
        tauto

/-- `convertMapToSortedSlice` is a permutation-style reordering: it has
exactly the members of its input. -/
theorem mem_convertMapToSortedSlice (connected : List (String × RelayInfo))
    (x : String × RelayInfo) :
    x ∈ convertMapToSortedSlice connected ↔ x ∈ connected := by
  induction connected with
  | nil => simp [convertMapToSortedSlice]
  | cons y ys ih =>
      simp only [convertMapToSortedSlice, List.foldr_cons] at ih ⊢
      rw [mem_insertByLatencyDesc, ih, List.mem_cons]

/-- C3: every `Switch` set computed by `findRelaysToSwitch` belongs to
some connected auto relay `R` (matching the instruction's IP and port),
every candidate in the set is faster than `R` by at least
`latencyThreshold = 10`, the set is a sublist of the probed available
list, and — when that list is sorted ascending by latency — the set
preserves the ascending order. -/
theorem c3_findRelaysToSwitch_threshold (connected : List (String × RelayInfo))
    (fastest : List nodeLatencyInfo)
    (hsorted : fastest.Pairwise (fun a b => a.latency ≤ b.latency)) :
    ∀ p ∈ findRelaysToSwitch connected fastest,
      (∃ r ∈ connected, p.1 = (r.1, r.2.port) ∧
        ∀ c ∈ p.2, (10 : ℚ) ≤ r.2.latency - c.latency) ∧
      p.2.Sublist fastest ∧
      p.2.Pairwise (fun a b => a.latency ≤ b.latency) := by
  intro p hp
  unfold findRelaysToSwitch at hp
  obtain ⟨r, hr, hpr⟩ := List.mem_filterMap.mp hp
  have hrmem : r ∈ connected := (mem_convertMapToSortedSlice connected r).mp hr
  by_cases hcs :
      (fastest.takeWhile (fun c => !(decide (r.2.latency < c.latency + 10)))).isEmpty
  · simp only [hcs, if_pos] at hpr
    cases hpr
  · simp only [hcs, if_neg, Bool.not_eq_true] at hpr
    cases hpr
    refine ⟨⟨r, hrmem, rfl, ?_⟩, sublist_takeWhile _ fastest,
      List.Pairwise.sublist (sublist_takeWhile _ fastest) hsorted⟩
    intro c hc
    have := pred_of_mem_takeWhile _ fastest c hc
    have hnot : ¬ (r.2.latency < c.latency + 10) := by
      simpa using this
    linarith [not_lt.mp hnot]

/-- Witness for C3 on the unit-test scenario: connected auto relays with
latencies 15, 26 and 8, available relays with latencies 3 and 10 (sorted
ascending).  The theorem applies, and concretely the relay at latency 26
is told to switch to both candidates, in ascending order. -/
theorem c3_findRelaysToSwitch_threshold_witness :
    ((∃ r ∈ [("1", RelayInfo.mk 1809 true false 15), ("2", RelayInfo.mk 1809 true false 26),
          ("3", RelayInfo.mk 1809 true false 8)],
        ((("2", (1809 : Int)),
            [nodeLatencyInfo.mk "4" 1809 3, nodeLatencyInfo.mk "5" 1809 10]) :
          (String × Int) × List nodeLatencyInfo).1 = (r.1, r.2.port) ∧
        ∀ c ∈ [nodeLatencyInfo.mk "4" 1809 3, nodeLatencyInfo.mk "5" 1809 10],
          (10 : ℚ) ≤ r.2.latency - c.latency) ∧
      List.Sublist [nodeLatencyInfo.mk "4" 1809 3, nodeLatencyInfo.mk "5" 1809 10]
        [nodeLatencyInfo.mk "4" 1809 3, nodeLatencyInfo.mk "5" 1809 10] ∧
      List.Pairwise (fun a b => a.latency ≤ b.latency)
        [nodeLatencyInfo.mk "4" 1809 3, nodeLatencyInfo.mk "5" 1809 10]) :=
  c3_findRelaysToSwitch_threshold
    [("1", RelayInfo.mk 1809 true false 15), ("2", RelayInfo.mk 1809 true false 26),
      ("3", RelayInfo.mk 1809 true false 8)]
    [nodeLatencyInfo.mk "4" 1809 3, nodeLatencyInfo.mk "5" 1809 10]
    (by norm_num [List.pairwise_cons])
    (("2", 1809), [nodeLatencyInfo.mk "4" 1809 3, nodeLatencyInfo.mk "5" 1809 10])
    (by
      norm_num [findRelaysToSwitch, convertMapToSortedSlice, insertByLatencyDesc,
        List.takeWhile]
      exact List.cons_ne_nil _ _)

/-- Every entry of the switch map is keyed by the IP and port of one of
the connected auto relays. -/
theorem key_of_mem_findRelaysToSwitch (connected : List (String × RelayInfo))
    (fastest : List nodeLatencyInfo) (p : (String × Int) × List nodeLatencyInfo)
    (hp : p ∈ findRelaysToSwitch connected fastest) :
    ∃ r ∈ connected, p.1 = (r.1, r.2.port) := by
  unfold findRelaysToSwitch at hp
  obtain ⟨r, hr, hpr⟩ := List.mem_filterMap.mp hp
  have hrmem : r ∈ connected := (mem_convertMapToSortedSlice connected r).mp hr
  by_cases hcs :
      (fastest.takeWhile (fun c => !(decide (r.2.latency < c.latency + 10)))).isEmpty
  · simp only [hcs, if_pos] at hpr
    cases hpr
  · simp only [hcs, if_neg, Bool.not_eq_true] at hpr
    cases hpr
    exact ⟨r, hrmem, rfl⟩

/-- `setLatency` only rewrites the latency field: every entry of the
result has the key, connection flag, static flag and port of an entry of
the input. -/
theorem mem_setLatency_corr (m : List (String × RelayInfo)) (ip : String) (lat : ℚ)
    (e : String × RelayInfo) (he : e ∈ setLatency m ip lat) :
    ∃ e₀ ∈ m, e.1 = e₀.1 ∧ e.2.isStatic = e₀.2.isStatic ∧
      e.2.isConnected = e₀.2.isConnected := by
  unfold setLatency at he
  obtain ⟨e₀, he₀, heq⟩ := List.mem_map.mp he
  refine ⟨e₀, he₀, ?_⟩
  by_cases h : e₀.1 = ip
  · rw [if_pos h] at heq
    cases heq
    exact ⟨rfl, rfl, rfl⟩
  · rw [if_neg h] at heq
    cases heq
    exact ⟨rfl, rfl, rfl⟩

/-- The map side of `findFastestAvailableRelays` only rewrites latencies:
every entry of the updated map has the key, static flag and connection
flag of an entry of the input map. -/
theorem mem_findFastestAvailableRelays_corr :
    ∀ (pings : List nodeLatencyInfo) (m : List (String × RelayInfo))
      (e : String × RelayInfo),
      e ∈ (findFastestAvailableRelays pings m).1 →
      ∃ e₀ ∈ m, e.1 = e₀.1 ∧ e.2.isStatic = e₀.2.isStatic ∧
        e.2.isConnected = e₀.2.isConnected := by
  intro pings
  induction pings with
  | nil =>
      intro m e he
      exact ⟨e, he, rfl, rfl, rfl⟩
  | cons p ps ih =>
      intro m e he
      unfold findFastestAvailableRelays at he
      by_cases hin : (m.lookup p.ip).isSome
      · rw [if_pos hin] at he
        obtain ⟨e₁, he₁, hk, hs, hc⟩ := ih (setLatency m p.ip p.latency) e he
        obtain ⟨e₀, he₀, hk₀, hs₀, hc₀⟩ := mem_setLatency_corr m p.ip p.latency e₁ he₁
        exact ⟨e₀, he₀, hk.trans hk₀, hs.trans hs₀, hc.trans hc₀⟩
      · rw [if_neg hin] at he
        exact ih m e he

/-- With pairwise-distinct keys, two entries of the association list with
the same key are the same entry. -/
theorem eq_of_mem_of_nodup_keys {β : Type} :
    ∀ (l : List (String × β)), (l.map Prod.fst).Nodup →
      ∀ a ∈ l, ∀ b ∈ l, a.1 = b.1 → a = b := by
  intro l
  induction l with
  | nil => intro _ a ha; simp at ha
  | cons x xs ih =>
      intro hnd a ha b hb hk
      rw [List.map_cons, List.nodup_cons] at hnd
      rcases List.mem_cons.mp ha with ha1 | ha2
      · rcases List.mem_cons.mp hb with hb1 | hb2
        · rw [ha1, hb1]
        · exfalso
          apply hnd.1
          rw [ha1] at hk
          rw [hk]
          exact List.mem_map_of_mem Prod.fst hb2
      · rcases List.mem_cons.mp hb with hb1 | hb2
        · exfalso
          apply hnd.1
          rw [hb1] at hk
          rw [← hk]
          exact List.mem_map_of_mem Prod.fst ha2
        · exact ih hnd.2 a ha2 b hb2 hk

/-- C4: `FindFastestRelays` never emits a `Switch` instruction naming a
relay whose entry in the ignored map has `isStatic = true` — the switch
subjects are drawn only from entries with `isConnected` true and
`isStatic` false (keys of the ignored map are unique, as in a Go map). -/
theorem c4_no_switch_for_static (ignoredRelays : List (String × RelayInfo))
    (pingLatencies : List nodeLatencyInfo)
    (hkeys : (ignoredRelays.map Prod.fst).Nodup) :
    ∀ inst ∈ FindFastestRelays ignoredRelays pingLatencies,
      ∀ kv ∈ ignoredRelays, kv.1 = inst.ip → kv.2.isStatic = false := by
  intro inst hinst kv hkv hk
  unfold FindFastestRelays at hinst
  by_cases hpe : pingLatencies.isEmpty
  · rw [if_pos hpe] at hinst
    simp at hinst
  · rw [if_neg hpe] at hinst
    obtain ⟨p, hp, hpeq⟩ := List.mem_map.mp hinst
    obtain ⟨r, hr, hkey⟩ := key_of_mem_findRelaysToSwitch _ _ p hp
    obtain ⟨e₀, he₀, hk₀, hs₀, _⟩ := mem_findFastestAvailableRelays_corr
      pingLatencies (getAutoConnectedRelays ignoredRelays) r hr
    unfold getAutoConnectedRelays at he₀
    obtain ⟨he₀ign, he₀flag⟩ := List.mem_filter.mp he₀
    have he₀static : e₀.2.isStatic = false := by
      rcases Bool.and_eq_true_iff.mp he₀flag with ⟨_, h2⟩
      simpa using h2
    have hips : inst.ip = r.1 := by
      cases hpeq
      rw [hkey]
    have : kv = e₀ :=
      eq_of_mem_of_nodup_keys ignoredRelays hkeys kv hkv e₀ he₀ign
        (by rw [hk, hips, hk₀])
    rw [this]
    exact he₀static

/-- Witness for C4: the ignored map holds a static relay `9.9.9.9` and a
connected auto relay `2.2.2.2`; a probe finds a fast available relay, so
a `Switch` for `2.2.2.2` is emitted, and the theorem yields that the
stored entry for that IP is not static. -/
theorem c4_no_switch_for_static_witness :
    (RelayInfo.mk 1809 true false 50).isStatic = false :=
  c4_no_switch_for_static
    [("9.9.9.9", RelayInfo.mk 1809 true true 0),
      ("2.2.2.2", RelayInfo.mk 1809 true false 50)]
    [nodeLatencyInfo.mk "3.3.3.3" 1809 5, nodeLatencyInfo.mk "2.2.2.2" 1809 50]
    (by decide)
    (RelayInstruction.mk "2.2.2.2" ConnInstructionType.switch 1809 false
      [nodeLatencyInfo.mk "3.3.3.3" 1809 5])
    (by
      simp [FindFastestRelays, getAutoConnectedRelays, findFastestAvailableRelays,
        setLatency, findRelaysToSwitch, convertMapToSortedSlice, insertByLatencyDesc,
        List.takeWhile, List.lookup]
      norm_num
      tauto)
    ("2.2.2.2", RelayInfo.mk 1809 true false 50)
    (by simp)
    rfl

/-! ### Blockchain-network and account loader properties -/

/-- C8 counterexample: an Ethereum network with
`terminalTotalDifficulty = 0` loaded through `getBlockchainNetworks`
(the body of `FetchAllBlockchainNetworks`) is stored with the 0 intact —
the claim's promised replacement by the maximum signed 64-bit value does
not happen on this load path. -/
theorem c8_counterexample :
    getBlockchainNetworks [BlockchainNetwork.mk "Ethereum" 5 0 1]
        = [(5, BlockchainNetwork.mk "Ethereum" 5 0 1)] ∧
    (BlockchainNetwork.mk "Ethereum" 5 0 1).protocol = EthereumProtocol ∧
    (0 : Int) ≠ maxInt64 := by
  refine ⟨rfl, rfl, ?_⟩
  decide

/-- C8 (amended): only `FetchBlockchainNetwork` applies the replacement —
for an Ethereum network with `terminalTotalDifficulty = 0` the stored
value becomes the maximum signed 64-bit integer, and any other network is
stored unchanged — while `getBlockchainNetworks` (the body of
`FetchAllBlockchainNetworks`) stores every network exactly as received,
keyed by its network number. -/
theorem c8_ttd_replacement_single_fetch_only :
    (∀ n : BlockchainNetwork, n.protocol = EthereumProtocol →
      n.terminalTotalDifficulty = 0 →
      (FetchBlockchainNetwork n).terminalTotalDifficulty = maxInt64) ∧
    (∀ n : BlockchainNetwork,
      n.protocol ≠ EthereumProtocol ∨ n.terminalTotalDifficulty ≠ 0 →
      FetchBlockchainNetwork n = n) ∧
    (∀ (resp : List BlockchainNetwork) (num : Nat) (n : BlockchainNetwork),
      (num, n) ∈ getBlockchainNetworks resp → n ∈ resp ∧ num = n.networkNum) := by
  refine ⟨?_, ?_, ?_⟩
  · intro n hp ht
    unfold FetchBlockchainNetwork
    rw [if_pos ⟨hp, ht⟩]
  · intro n h
    unfold FetchBlockchainNetwork
    rw [if_neg (by tauto)]
  · intro resp num n hmem
    obtain ⟨n₀, hn₀, heq⟩ := List.mem_map.mp hmem
    cases heq
    exact ⟨hn₀, rfl⟩

/-- Witness for the amended C8: the Ethereum sentinel network gets
`2^63 - 1` through `FetchBlockchainNetwork`, a non-sentinel network is
untouched, and a network stored by `getBlockchainNetworks` is the
received one. -/
theorem c8_ttd_replacement_single_fetch_only_witness :
    (FetchBlockchainNetwork (BlockchainNetwork.mk "Ethereum" 5 0 1)).terminalTotalDifficulty
        = maxInt64 ∧
    FetchBlockchainNetwork (BlockchainNetwork.mk "Ethereum" 5 7 1)
        = BlockchainNetwork.mk "Ethereum" 5 7 1 ∧
    (BlockchainNetwork.mk "Ethereum" 5 0 1 ∈ [BlockchainNetwork.mk "Ethereum" 5 0 1] ∧
      5 = (BlockchainNetwork.mk "Ethereum" 5 0 1).networkNum) :=
  ⟨c8_ttd_replacement_single_fetch_only.1 (BlockchainNetwork.mk "Ethereum" 5 0 1) rfl rfl,
    c8_ttd_replacement_single_fetch_only.2.1 (BlockchainNetwork.mk "Ethereum" 5 7 1)
      (Or.inr (by decide)),
    c8_ttd_replacement_single_fetch_only.2.2 [BlockchainNetwork.mk "Ethereum" 5 0 1]
      5 (BlockchainNetwork.mk "Ethereum" 5 0 1) (by simp [getBlockchainNetworks])⟩

/-- C9: after `getAccountModel` completes, both
`relayLimit.msgQuota.limit` and `maxAllowedNodes.msgQuota.limit` are at
least 1; a post-merge limit of 0 is rewritten to exactly 1 for
`relayLimit` and to exactly 6 for `maxAllowedNodes` (the merge itself
fills only empty fields from the default-elite template). -/
theorem c9_account_limits_rewritten (defaultElite fetched : Account) :
    1 ≤ (getAccountModel defaultElite fetched).relayLimit.msgQuota.limit ∧
    1 ≤ (getAccountModel defaultElite fetched).maxAllowedNodes.msgQuota.limit ∧
    ((fillInAccountDefaults defaultElite fetched).relayLimit.msgQuota.limit = 0 →
      (getAccountModel defaultElite fetched).relayLimit.msgQuota.limit = 1) ∧
    ((fillInAccountDefaults defaultElite fetched).maxAllowedNodes.msgQuota.limit = 0 →
      (getAccountModel defaultElite fetched).maxAllowedNodes.msgQuota.limit = 6) ∧
    (fetched.relayLimit.msgQuota.limit ≠ 0 →
      (fillInAccountDefaults defaultElite fetched).relayLimit.msgQuota.limit
        = fetched.relayLimit.msgQuota.limit) ∧
    (fetched.relayLimit.msgQuota.limit = 0 →
      (fillInAccountDefaults defaultElite fetched).relayLimit.msgQuota.limit
        = defaultElite.relayLimit.msgQuota.limit) := by
  unfold getAccountModel fillInAccountDefaults
  by_cases hf : fetched.relayLimit.msgQuota.limit = 0 <;>
    by_cases hm : fetched.maxAllowedNodes.msgQuota.limit = 0 <;>
      by_cases hd : defaultElite.relayLimit.msgQuota.limit = 0 <;>
        by_cases hd2 : defaultElite.maxAllowedNodes.msgQuota.limit = 0 <;>
          simp [hf, hm, hd, hd2] <;> omega

/-- Witness for C9 at the all-zero account (both the fetched account and
the default-elite template have zero limits): the stored limits come out
as exactly 1 and 6. -/
theorem c9_account_limits_rewritten_witness :
    1 ≤ (getAccountModel (Account.mk ⟨⟨0⟩⟩ ⟨⟨0⟩⟩) (Account.mk ⟨⟨0⟩⟩ ⟨⟨0⟩⟩)).relayLimit.msgQuota.limit ∧
    1 ≤ (getAccountModel (Account.mk ⟨⟨0⟩⟩ ⟨⟨0⟩⟩) (Account.mk ⟨⟨0⟩⟩ ⟨⟨0⟩⟩)).maxAllowedNodes.msgQuota.limit ∧
    ((fillInAccountDefaults (Account.mk ⟨⟨0⟩⟩ ⟨⟨0⟩⟩) (Account.mk ⟨⟨0⟩⟩ ⟨⟨0⟩⟩)).relayLimit.msgQuota.limit = 0 →
      (getAccountModel (Account.mk ⟨⟨0⟩⟩ ⟨⟨0⟩⟩) (Account.mk ⟨⟨0⟩⟩ ⟨⟨0⟩⟩)).relayLimit.msgQuota.limit = 1) ∧
    ((fillInAccountDefaults (Account.mk ⟨⟨0⟩⟩ ⟨⟨0⟩⟩) (Account.mk ⟨⟨0⟩⟩ ⟨⟨0⟩⟩)).maxAllowedNodes.msgQuota.limit = 0 →
      (getAccountModel (Account.mk ⟨⟨0⟩⟩ ⟨⟨0⟩⟩) (Account.mk ⟨⟨0⟩⟩ ⟨⟨0⟩⟩)).maxAllowedNodes.msgQuota.limit = 6) ∧
    ((Account.mk ⟨⟨0⟩⟩ ⟨⟨0⟩⟩ : Account).relayLimit.msgQuota.limit ≠ 0 →
      (fillInAccountDefaults (Account.mk ⟨⟨0⟩⟩ ⟨⟨0⟩⟩) (Account.mk ⟨⟨0⟩⟩ ⟨⟨0⟩⟩)).relayLimit.msgQuota.limit
        = (Account.mk ⟨⟨0⟩⟩ ⟨⟨0⟩⟩ : Account).relayLimit.msgQuota.limit) ∧
    ((Account.mk ⟨⟨0⟩⟩ ⟨⟨0⟩⟩ : Account).relayLimit.msgQuota.limit = 0 →
      (fillInAccountDefaults (Account.mk ⟨⟨0⟩⟩ ⟨⟨0⟩⟩) (Account.mk ⟨⟨0⟩⟩ ⟨⟨0⟩⟩)).relayLimit.msgQuota.limit
        = (Account.mk ⟨⟨0⟩⟩ ⟨⟨0⟩⟩ : Account).relayLimit.msgQuota.limit) :=
  c9_account_limits_rewritten (Account.mk ⟨⟨0⟩⟩ ⟨⟨0⟩⟩) (Account.mk ⟨⟨0⟩⟩ ⟨⟨0⟩⟩)

end BxSdn
